import Mathlib

/-!
Shallow embedding of the minimatch-fast core (TypeScript) in Lean 4, together
with theorems settling the specification claims about it.

Strings are modelled as lists of characters (`Str`), JavaScript string
operations as list operations.  Each definition mirrors one function of the
source; the external picomatch segment matchers and the external `braces`
expander are kept opaque (parameters of function type), since the package
treats them as external services.
-/

abbrev Str := List Char

namespace MinimatchFast

/-! ### Generic string helpers (JavaScript string operations) -/

/-- Substring test, mirroring JavaScript `String.prototype.includes`. -/
def strIncludes (hay needle : Str) : Bool :=
  hay.tails.any (fun t => needle.isPrefixOf t)

/-- The segment of `p` after its last `'/'` (the whole of `p` when it has
none), mirroring `p.slice(p.lastIndexOf('/') + 1)`. -/
def lastSeg (p : Str) : Str :=
  (p.reverse.takeWhile (fun c => c ≠ '/')).reverse

/-- `p.replace(/\\/g, '/')`: fold every backslash to a forward slash, as
`normalizePath`/`normalizePattern` of `utils.ts` do. -/
def normalizeBackslashes (p : Str) : Str :=
  p.map (fun c => if c = '\\' then '/' else c)

/-! ### escape.ts / unescape.ts -/

/-- The characters escaped by `escape` in default (backslash) mode:
the regex class `[?*()[\]{}\\]` of `escape.ts`. -/
def defaultSpecials : List Char := ['?', '*', '(', ')', '[', ']', '{', '}', '\\']

/-- The characters wrapped by `escape` in `windowsPathsNoEscape` mode:
the regex class `[?*()[\]{}]` of `escape.ts`. -/
def winSpecials : List Char := ['?', '*', '(', ')', '[', ']', '{', '}']

/-- Characters that the windows-mode `unescape` refuses to unwrap:
the regex class `[^\/\\[\]{}]` of `unescape.ts`, negated. -/
def winExcluded : List Char := ['/', '\\', '[', ']', '{', '}']

/-- Default-mode escaping: `str.replace(/[?*()[\]{}\\]/g, '\\$&')`. -/
def escDefault : Str → Str
  | [] => []
  | c :: cs => (if c ∈ defaultSpecials then ['\\', c] else [c]) ++ escDefault cs

/-- Windows-mode escaping: `str.replace(/[?*()[\]{}]/g, '[$&]')`. -/
def escWindows : Str → Str
  | [] => []
  | c :: cs => (if c ∈ winSpecials then ['[', c, ']'] else [c]) ++ escWindows cs

/-- `escape(str, options)` of `escape.ts`: windows mode wraps magic characters
in a character class, default mode prefixes them with a backslash. -/
def escape (windowsPathsNoEscape : Bool) (s : Str) : Str :=
  if windowsPathsNoEscape then escWindows s else escDefault s

/-- Default-mode unescaping: the left-to-right global replace
`str.replace(/\\([^/])/g, '$1')`. -/
def unescDefault : Str → Str
  | [] => []
  | c :: cs =>
    if c = '\\' then
      match cs with
      | [] => ['\\']
      | d :: cs2 =>
        if d = '/' then '\\' :: '/' :: unescDefault cs2 else d :: unescDefault cs2
    else c :: unescDefault cs

/-- Windows-mode unescaping: the left-to-right global replace
`str.replace(/\[([^\/\\[\]{}])\]/g, '$1')`. -/
def unescWindows : Str → Str
  | [] => []
  | '[' :: d :: e :: cs2 =>
    if e = ']' ∧ d ∉ winExcluded then d :: unescWindows cs2
    else '[' :: unescWindows (d :: e :: cs2)
  | c :: cs => c :: unescWindows cs
  termination_by s => s.length
  decreasing_by all_goals (simp [List.length_cons]; try omega)

/-- `unescape(str, options)` of `unescape.ts`. -/
def unescape (windowsPathsNoEscape : Bool) (s : Str) : Str :=
  if windowsPathsNoEscape then unescWindows s else unescDefault s

/-! ### types.ts: the option record

Only the options that the embedded code reads are modelled, plus `failglob`
and `maxLength`, which `types.ts` declares but which no code under `src/`
ever reads. -/

structure MMOptions where
  dot : Bool := false
  nocase : Bool := false
  noglobstar : Bool := false
  nobrace : Bool := false
  noext : Bool := false
  nonegate : Bool := false
  nocomment : Bool := false
  matchBase : Bool := false
  nonull : Bool := false
  flipNegate : Bool := false
  windowsPathsNoEscape : Bool := false
  allowWindowsEscape : Option Bool := none
  preserveMultipleSlashes : Bool := false
  partialFlag : Bool := false
  platform : Option Str := none
  optimizationLevel : Int := 1
  failglob : Bool := false
  maxLength : Option Int := none
  deriving DecidableEq

/-! ### cache.ts: the LRU cache for compiled patterns

A JavaScript `Map` is modelled as an association list in insertion order;
`Map.delete` removes the (unique) entry with the given key, re-inserting
appends at the end. -/

/-- `CACHE_SIZE` of `cache.ts`. -/
def CACHE_SIZE : Nat := 500

/-- A `Map` with `Str` keys, in insertion order. -/
abbrev CacheState (V : Type) := List (Str × V)

/-- `Map.get`: the value at key `k` (for well-formed states keys are unique;
the first occurrence decides). -/
def cacheGet {V : Type} : CacheState V → Str → Option V
  | [], _ => none
  | e :: t, k => if e.1 = k then some e.2 else cacheGet t k

/-- `Map.delete`: remove the first (for well-formed states, only) entry
holding key `k`. -/
def cacheDelete {V : Type} : CacheState V → Str → CacheState V
  | [], _ => []
  | e :: t, k => if e.1 = k then t else e :: cacheDelete t k

/-- `Map.size`, as reported by `getCacheSize` of `cache.ts`. -/
def getCacheSize {V : Type} (st : CacheState V) : Nat := st.length

/-- `'1'`/`'0'` encoding of one boolean option. -/
def optBit (b : Bool) : Str := if b then ['1'] else ['0']

/-- `getCacheKey` of `cache.ts`: the pattern, a null byte, the twelve
compilation-relevant booleans, and the platform (empty when unset). -/
def getCacheKey (pattern : Str) (o : MMOptions) : Str :=
  pattern ++ [Char.ofNat 0] ++
    optBit o.nocase ++ optBit o.dot ++ optBit o.noglobstar ++ optBit o.nobrace ++
    optBit o.noext ++ optBit o.nonegate ++ optBit o.nocomment ++ optBit o.matchBase ++
    optBit o.flipNegate ++ optBit o.windowsPathsNoEscape ++
    optBit o.preserveMultipleSlashes ++ optBit o.partialFlag ++
    o.platform.getD []

/-- One call of `getOrCreateMatcher` of `cache.ts`, with the key already
derived and the freshly compiled value passed in (`new Minimatch(...)` is
opaque here).  On a hit the entry is deleted and re-inserted (promotion to
most-recently-used); on a miss with a full cache the entry holding the first
key is deleted before the new entry is appended. -/
def getOrCreateStep {V : Type} (st : CacheState V) (k : Str) (fresh : V) :
    V × CacheState V :=
  match cacheGet st k with
  | some mm => (mm, cacheDelete st k ++ [(k, mm)])
  | none =>
    let st1 :=
      if CACHE_SIZE ≤ st.length then
        match st with
        | [] => st
        | e :: _ => cacheDelete st e.1
      else st
    (fresh, st1 ++ [(k, fresh)])

/-- Run a sequence of `getOrCreateMatcher` calls, starting from the empty
cache; each call supplies its pattern, its options and the value a fresh
compilation would produce. -/
def runMatcherCalls {V : Type} (calls : List (Str × MMOptions × V)) : CacheState V :=
  calls.foldl (fun st c => (getOrCreateStep st (getCacheKey c.1 c.2.1) c.2.2).2) []

/-! ### brace-expand.ts -/

/-- `MAX_EXPANSION_LENGTH` of `brace-expand.ts`. -/
def MAX_EXPANSION_LENGTH : Nat := 10000

/-- `BRACE_CACHE_SIZE` of `brace-expand.ts`. -/
def BRACE_CACHE_SIZE : Nat := 200

/-- `addToBraceCache` of `brace-expand.ts`. -/
def addToBraceCache (cache : CacheState (List Str)) (pattern : Str)
    (result : List Str) : CacheState (List Str) :=
  let c1 :=
    if BRACE_CACHE_SIZE ≤ cache.length then
      match cache with
      | [] => cache
      | e :: _ => cacheDelete cache e.1
    else cache
  c1 ++ [(pattern, result)]

/-- The pre-check of `braceExpand`: the pattern has a `'{'` with a `'}'`
somewhere after it (`indexOf('{')` then `indexOf('}', braceIdx)`). -/
def hasBracePair (p : Str) : Bool :=
  match p.dropWhile (fun c => c ≠ '{') with
  | [] => false
  | _ :: rest => rest.contains '}'

/-- `[...new Set(xs)]`: remove duplicates, keeping first occurrences in
order. -/
def dedupFirstAux (seen : List Str) : List Str → List Str
  | [] => []
  | x :: xs =>
    if seen.contains x then dedupFirstAux seen xs
    else x :: dedupFirstAux (seen ++ [x]) xs

/-- Deduplication preserving first-seen order. -/
def dedupFirst (l : List Str) : List Str := dedupFirstAux [] l

/-- `trySimpleBraceExpand` of `brace-expand.ts`: match the regex
`^([^{]*)\{([^{}]+)\}([^{]*)$`, reject range contents (`..`), and otherwise
split the group on commas. -/
def trySimpleBraceExpand (p : Str) : Option (List Str) :=
  let pre := p.takeWhile (fun c => c ≠ '{')
  match p.drop pre.length with
  | '{' :: rest1 =>
    let content := rest1.takeWhile (fun c => c ≠ '{' ∧ c ≠ '}')
    (match rest1.drop content.length with
     | '}' :: suf =>
       if content = [] then none
       else if suf.contains '{' then none
       else if strIncludes content ['.', '.'] then none
       else some ((content.splitOn ',').map (fun item => pre ++ item ++ suf))
     | _ => none)
  | _ => none

/-- `braceExpand` of `brace-expand.ts`.  The external `braces` package is the
oracle `E`; `Except.error` stands for it throwing.  The brace cache is passed
and returned explicitly.  (The source returns array copies; sharing is
irrelevant in a functional model.) -/
def braceExpand (E : Str → Except Unit (List Str))
    (cache : CacheState (List Str)) (pattern : Str) (o : MMOptions) :
    List Str × CacheState (List Str) :=
  if o.nobrace then ([pattern], cache)
  else if hasBracePair pattern = false then ([pattern], cache)
  else
    match cacheGet cache pattern with
    | some v => (v, cache)
    | none =>
      match trySimpleBraceExpand pattern with
      | some r => (r, addToBraceCache cache pattern r)
      | none =>
        match E pattern with
        | .error _ => ([pattern], cache)
        | .ok expanded =>
          if MAX_EXPANSION_LENGTH < expanded.length then ([pattern], cache)
          else
            let u := dedupFirst expanded
            let r := if u = [] then [pattern] else u
            (r, addToBraceCache cache pattern r)

/-! ### minimatch-class.ts: matchOne -/

/-- One parsed pattern part (`ParseReturn` of `types.ts`): `false` (invalid),
the `GLOBSTAR` symbol, a plain string, or a compiled segment regex (opaque
predicate). -/
inductive PToken where
  | invalid
  | globstar
  | lit (s : Str)
  | matcher (f : Str → Bool)

/-- The dot-segment test of the globstar branches of `matchOne`:
the segment is `'.'`, `'..'`, or (without the `dot` option) starts with a
dot. -/
def dotBad (dot : Bool) (seg : Str) : Bool :=
  seg == ['.'] || seg == ['.', '.'] || (!dot && seg.head? == some '.')

mutual

/-- `Minimatch.matchOne(file, pattern, partial)`: the lock-step walk over the
file segments and the pattern tokens, with globstar backtracking.  `dot` is
the only option it reads. -/
def matchOne (dot pfl : Bool) : List Str → List PToken → Bool
  | [], [] => true
  | [], _ :: _ => pfl
  | f :: fs, [] => fs.isEmpty && f.isEmpty
  | f :: fs, p :: ps =>
    match p with
    | .invalid => false
    | .lit s => if f = s then matchOne dot pfl fs ps else false
    | .matcher m => if m f then matchOne dot pfl fs ps else false
    | .globstar =>
      match ps with
      | [] => (f :: fs).all (fun seg => !dotBad dot seg)
      | q :: qs => gsLoop dot pfl (f :: fs) (q :: qs)
  termination_by file pat => (pat.length, file.length, 0)

/-- The `while (fr < fl)` loop of the non-final globstar case of `matchOne`:
try the rest of the pattern at each consumption point, stop at a dot
segment, and report a partial success when the file is exhausted. -/
def gsLoop (dot pfl : Bool) : List Str → List PToken → Bool
  | [], _ => pfl
  | f :: fs, ps =>
    if matchOne dot pfl (f :: fs) ps then true
    else if dotBad dot f then false
    else gsLoop dot pfl fs ps
  termination_by file pat => (pat.length, file.length, 1)

end

/-! ### minimatch-class.ts: the Minimatch instance state and match() -/

/-- The regex test `/\[\^[^\]]+\]/.test(p)`: `p` contains `[^`, then at least
one character that is not `]`, then `]`. -/
def hasNegCC (p : Str) : Bool :=
  p.tails.any fun t =>
    match t with
    | '[' :: '^' :: c :: rest => c ≠ ']' && rest.contains ']'
    | _ => false

/-- The regex test `/\*\*\/\.[^/]+\/\*\*/.test(p)`: `p` contains `**/.`,
then at least one character that is not `/`, then `/**`. -/
def reqTrailingSlash (p : Str) : Bool :=
  p.tails.any fun t =>
    match t with
    | '*' :: '*' :: '/' :: '.' :: u =>
      let b := u.takeWhile (fun c => c ≠ '/')
      (match u.drop b.length with
       | '/' :: '*' :: '*' :: _ => !b.isEmpty
       | _ => false)
    | _ => false

/-- `parseNegate`: count leading `'!'` characters (unless `nonegate`), strip
them, and record the parity. -/
def parseNegate (nonegate : Bool) (p : Str) : Bool × Str :=
  if nonegate then (false, p)
  else
    let bangs := p.takeWhile (fun c => c = '!')
    (bangs.length % 2 == 1, p.drop bangs.length)

/-- JavaScript `s.split('/')` (keeps empty fragments). -/
def jsSplitSlash (p : Str) : List Str := p.splitOn '/'

/-- The scan of the `**/.x/**` compatibility block of `Minimatch.match`:
three consecutive pattern parts `**`, a nonempty dot-initial part equal to
the path's last part, and `**` again. -/
def reqKill (lastPathPart : Str) : List Str → Bool
  | a :: b :: c :: rest =>
    (a == ['*', '*'] && !b.isEmpty && b.head? == some '.' &&
      c == ['*', '*'] && lastPathPart == b)
    || reqKill lastPathPart (b :: c :: rest)
  | _ => false

/-- The fields of a constructed `Minimatch` instance that `match` reads.
The picomatch whole-string matchers (`_matchers`) are opaque predicates. -/
structure MMState where
  pattern : Str
  options : MMOptions
  comment : Bool
  empty : Bool
  negate : Bool
  windowsPathsNoEscape : Bool
  isWindows : Bool
  matchers : List (Str → Bool)
  hasNegatedCharClass : Bool
  requiresTrailingSlash : Bool
  patternBasename : Str

/-- The `Minimatch` constructor (together with `make`), up to the parts that
need picomatch: pattern normalization, comment/empty detection, negation
parsing, and the cached compatibility fields.  `matchers` stands for the
picomatch matchers built from the brace-expanded pattern; `defaultPlatform`
stands for `process.platform`. -/
def mkState (pattern0 : Str) (o : MMOptions) (matchers : List (Str → Bool))
    (defaultPlatform : Str) : MMState :=
  let wpne := o.windowsPathsNoEscape || o.allowWindowsEscape == some false
  let p1 := if wpne then normalizeBackslashes pattern0 else pattern0
  let platform := o.platform.getD defaultPlatform
  let isWin := platform == ['w', 'i', 'n', '3', '2']
  let comment := !o.nocomment && p1.head? == some '#'
  let empty := !comment && p1.isEmpty
  let np := if comment || empty then (false, p1) else parseNegate o.nonegate p1
  { pattern := np.2
    options := o
    comment := comment
    empty := empty
    negate := np.1
    windowsPathsNoEscape := wpne
    isWindows := isWin
    matchers := matchers
    hasNegatedCharClass := hasNegCC np.2
    requiresTrailingSlash := reqTrailingSlash np.2
    patternBasename := lastSeg np.2 }

/-- The in-`match` path normalization: backslashes fold to slashes when the
platform is Windows or `windowsPathsNoEscape` is set, and the path actually
contains a backslash. -/
def mmNormPath (st : MMState) (path0 : Str) : Str :=
  if (st.windowsPathsNoEscape || st.isWindows) && path0.contains '\\'
  then normalizeBackslashes path0 else path0

/-- `Minimatch.match(path, partial)` of `minimatch-class.ts`: the comment,
empty, root-partial and `.`/`..` short circuits, path normalization, the
trailing-slash retry, the matchBase split, the negated-character-class and
`**/.x/**` compatibility filters, and negation / `flipNegate` at the end. -/
def mmMatch (st : MMState) (path0 : Str) (pfl : Bool) : Bool :=
  if st.comment then false
  else if st.empty then path0.isEmpty
  else if path0 = ['/'] ∧ pfl = true then true
  else
    let path := mmNormPath st path0
    let basename := lastSeg path
    if (basename = ['.'] ∨ basename = ['.', '.']) ∧
        st.patternBasename ≠ basename ∧
        st.patternBasename ≠ '.' :: '*' :: basename.drop 1 ∧
        strIncludes st.pattern basename = false
    then st.negate
    else
      let pathNoTrail :=
        if path.getLast? = some '/' ∧ 1 < path.length then path.dropLast else path
      let matches0 :=
        if st.options.matchBase = true ∧ path.contains '/' = false then
          st.matchers.any (fun m => m path)
        else if st.options.matchBase = true then
          st.matchers.any (fun m => m path || m basename)
        else
          st.matchers.any (fun m => m path || m pathNoTrail)
      let matches1 :=
        if matches0 = true ∧ st.options.dot = false ∧
            st.hasNegatedCharClass = true ∧ basename.head? = some '.'
        then false else matches0
      let matches2 :=
        if matches1 = true ∧ st.requiresTrailingSlash = true ∧
            path.getLast? ≠ some '/' ∧
            reqKill ((jsSplitSlash path).getLastD []) (jsSplitSlash st.pattern) = true
        then false else matches1
      if st.options.flipNegate then matches2
      else if st.negate then !matches2 else matches2

/-! ### fast-paths.ts (embedded index.ts): the list-filtering entry point -/

/-- `minimatch.match(list, pattern, options)` of the package entry point.
`mm` stands for the compiled instance's `match` method.  The result is an
`Except` so that a raising implementation could be distinguished; the code
under `src/` never raises: it filters, and substitutes `[pattern]` when
`nonull` is set and nothing matched.  It never reads `options.failglob`. -/
def matchList (o : MMOptions) (mm : Str → Bool) (list : List Str)
    (pattern : Str) : Except Str (List Str) :=
  let result := list.filter mm
  .ok (if o.nonull = true ∧ result = [] then [pattern] else result)

/-! ### minimatch-class.ts: constructor validation -/

/-- `MAX_PATTERN_LENGTH` of `minimatch-class.ts`: a module constant; the
constructor reads no `maxLength` option. -/
def MAX_PATTERN_LENGTH : Nat := 65536

/-- The validation performed by the `Minimatch` constructor on a (string)
pattern: only the fixed-length guard; `options.maxLength` is never read. -/
def minimatchConstructorCheck (pattern : Str) (_o : MMOptions) : Except Str Unit :=
  if MAX_PATTERN_LENGTH < pattern.length then
    .error ('p' :: 'a' :: 't' :: 't' :: 'e' :: 'r' :: 'n' :: ' ' :: 'i' :: 's' ::
      ' ' :: 't' :: 'o' :: 'o' :: ' ' :: 'l' :: 'o' :: 'n' :: 'g' :: [])
  else .ok ()

/-! ## Theorems -/

/-! ### Escape / unescape round trips (claim C9) -/

theorem unescDefault_cons_ne {c : Char} (cs : Str) (h : c ≠ '\\') :
    unescDefault (c :: cs) = c :: unescDefault cs := by
  rw [unescDefault.eq_def]
  simp [h]

theorem unescDefault_esc {c : Char} (cs : Str) (h : c ≠ '/') :
    unescDefault ('\\' :: c :: cs) = c :: unescDefault cs := by
  simp [unescDefault, h]

theorem unescDefault_escDefault (s : Str) : unescDefault (escDefault s) = s := by
  induction s with
  | nil => rfl
  | cons c s ih =>
    by_cases hc : c ∈ defaultSpecials
    · have hslash : c ≠ '/' := by
        intro h; subst h; simp [defaultSpecials] at hc
      simp [escDefault, hc, unescDefault_esc _ hslash, ih]
    · have hbs : c ≠ '\\' := by
        intro h; subst h; simp [defaultSpecials] at hc
      simp [escDefault, hc, unescDefault_cons_ne _ hbs, ih]

theorem unescWindows_cons_ne {c : Char} (cs : Str) (h : c ≠ '[') :
    unescWindows (c :: cs) = c :: unescWindows cs := by
  match cs with
  | [] => simp [unescWindows, h]
  | [d] => simp [unescWindows, h]
  | d :: e :: cs2 => simp [unescWindows, h]

theorem unescWindows_wrap {c : Char} (cs : Str) (h : c ∉ winExcluded) :
    unescWindows ('[' :: c :: ']' :: cs) = c :: unescWindows cs := by
  simp [unescWindows, h]

theorem unescWindows_escWindows (s : Str)
    (h : ∀ c ∈ s, c ∉ (['[', ']', '{', '}'] : List Char)) :
    unescWindows (escWindows s) = s := by
  induction s with
  | nil => simp [escWindows, unescWindows]
  | cons c s ih =>
    have hc4 : c ∉ (['[', ']', '{', '}'] : List Char) := h c (List.mem_cons_self ..)
    have hs := fun d hd => h d (List.mem_cons_of_mem _ hd)
    by_cases hc : c ∈ winSpecials
    · have hex : c ∉ winExcluded := by
        intro hmem
        simp only [winExcluded, List.mem_cons, List.not_mem_nil, or_false] at hmem
        rcases hmem with h1 | h1 | h1 | h1 | h1 | h1 <;> subst h1 <;>
          first
            | exact absurd hc (by decide)
            | exact hc4 (by decide)
      simp [escWindows, hc, unescWindows_wrap _ hex, ih hs]
    · have hlb : c ≠ '[' := by
        intro h1; subst h1; simp [winSpecials] at hc
      simp [escWindows, hc, unescWindows_cons_ne _ hlb, ih hs]

/-- Claim C9, counterexample: in the `windowsPathsNoEscape` mode the round
trip fails on the one-character string `"["`: `escape` wraps it as `"[[]"`,
which the unescape regex `\[([^\/\\[\]{}])\]` does not unwrap (its inner
character is excluded), so `unescape(escape("[")) = "[[]" ≠ "["`. -/
theorem claim_C9_counterexample : unescape true (escape true ['[']) ≠ ['['] := by
  simp [escape, escWindows, winSpecials, unescape, unescWindows, winExcluded]

/-- Claim C9, amended: `unescape(escape(s)) == s` holds for every `s` in the
default backslash-escape mode; in the character-class-wrap mode selected by
`windowsPathsNoEscape` it holds exactly under the proviso that `s` contains
none of the four characters `[`, `]`, `{`, `}` (whose wrapped forms the
unescape regex refuses to unwrap). -/
theorem claim_C9 :
    (∀ s : Str, unescape false (escape false s) = s) ∧
    (∀ s : Str, (∀ c ∈ s, c ∉ (['[', ']', '{', '}'] : List Char)) →
      unescape true (escape true s) = s) := by
  constructor
  · intro s
    simpa [escape, unescape] using unescDefault_escDefault s
  · intro s h
    simpa [escape, unescape] using unescWindows_escWindows s h

/-- Witness for claim C9 at a concrete input with both hypotheses
discharged. -/
theorem claim_C9_witness :
    unescape false (escape false ['a', '*', 'b']) = ['a', '*', 'b'] ∧
    unescape true (escape true ['a', '*', 'b']) = ['a', '*', 'b'] :=
  ⟨claim_C9.1 ['a', '*', 'b'], claim_C9.2 ['a', '*', 'b'] (by decide)⟩

/-! ### Constructor validation (claim C3) -/

/-- Claim C3: the `Minimatch` constructor under `src/` never validates the
`maxLength` option.  With `maxLength := 0` it succeeds (the claim says it
must raise InvalidOption); with a 100-character pattern and `maxLength := 50`
it succeeds (the claim says PatternTooLong); only the fixed 65536 limit is
enforced (boundary shown), and the check is entirely independent of the
options record. -/
theorem claim_C3 :
    minimatchConstructorCheck ['t', 'e', 's', 't'] { maxLength := some 0 } = .ok () ∧
    minimatchConstructorCheck (List.replicate 100 'a') { maxLength := some 50 } = .ok () ∧
    minimatchConstructorCheck (List.replicate 65536 'a') {} = .ok () ∧
    minimatchConstructorCheck (List.replicate 65537 'a') {} ≠ .ok () ∧
    (∀ (p : Str) (o₁ o₂ : MMOptions),
      minimatchConstructorCheck p o₁ = minimatchConstructorCheck p o₂) := by
  refine ⟨?_, ?_, ?_, ?_, fun p o₁ o₂ => rfl⟩
  · simp [minimatchConstructorCheck, MAX_PATTERN_LENGTH]
  · have h1 : ¬ MAX_PATTERN_LENGTH < (List.replicate 100 'a').length := by
      rw [List.length_replicate]; decide
    unfold minimatchConstructorCheck
    rw [if_neg h1]
  · have h1 : ¬ MAX_PATTERN_LENGTH < (List.replicate 65536 'a').length := by
      rw [List.length_replicate]; decide
    unfold minimatchConstructorCheck
    rw [if_neg h1]
  · have h1 : MAX_PATTERN_LENGTH < (List.replicate 65537 'a').length := by
      rw [List.length_replicate]; decide
    unfold minimatchConstructorCheck
    rw [if_pos h1]
    exact fun h => Except.noConfusion h

/-! ### List filtering and failglob (claim C2) -/

/-- Claim C2: `minimatch.match` under `src/` never raises; at the failing
input of the repository's own test (paths `a.txt`, `b.txt`, pattern `*.js`,
`failglob` set) it returns the empty list normally instead of throwing, and
in general no input produces an error. -/
theorem claim_C2 :
    matchList { failglob := true }
        (fun s =>
          mmMatch
            (mkState ['*', '.', 'j', 's'] { failglob := true }
              [fun t => ['.', 'j', 's'].isSuffixOf t] ['l', 'i', 'n', 'u', 'x'])
            s false)
        [['a', '.', 't', 'x', 't'], ['b', '.', 't', 'x', 't']]
        ['*', '.', 'j', 's'] = .ok [] ∧
    (∀ (o : MMOptions) (mm : Str → Bool) (list : List Str) (pat e : Str),
      matchList o mm list pat ≠ .error e) := by
  constructor
  · rfl
  · intro o mm list pat e
    simp [matchList]

/-! ### The LRU pattern cache (claim C5) -/

theorem length_cacheDelete_le {V : Type} (st : CacheState V) (k : Str) :
    (cacheDelete st k).length ≤ st.length := by
  induction st with
  | nil => simp [cacheDelete]
  | cons e t ih =>
    by_cases h : e.1 = k
    · simp [cacheDelete, h]
    · simpa [cacheDelete, h] using ih

theorem length_cacheDelete_lt {V : Type} (st : CacheState V) (k : Str) (v : V)
    (h : cacheGet st k = some v) : (cacheDelete st k).length < st.length := by
  induction st with
  | nil => simp [cacheGet] at h
  | cons e t ih =>
    by_cases he : e.1 = k
    · simp [cacheDelete, he]
    · have h' : cacheGet t k = some v := by simpa [cacheGet, he] using h
      simpa [cacheDelete, he] using Nat.succ_lt_succ (ih h')

theorem getOrCreateStep_hit {V : Type} (st : CacheState V) (k : Str) (v fresh : V)
    (h : cacheGet st k = some v) :
    getOrCreateStep st k fresh = (v, cacheDelete st k ++ [(k, v)]) := by
  unfold getOrCreateStep
  rw [h]

theorem getOrCreateStep_miss_small {V : Type} (st : CacheState V) (k : Str)
    (fresh : V) (h : cacheGet st k = none) (hlen : st.length < CACHE_SIZE) :
    getOrCreateStep st k fresh = (fresh, st ++ [(k, fresh)]) := by
  unfold getOrCreateStep
  rw [h]
  simp [if_neg (Nat.not_le.mpr hlen)]

theorem getOrCreateStep_miss_full {V : Type} (e : Str × V) (t : CacheState V)
    (k : Str) (fresh : V) (h : cacheGet (e :: t) k = none)
    (hlen : CACHE_SIZE ≤ (e :: t).length) :
    getOrCreateStep (e :: t) k fresh = (fresh, t ++ [(k, fresh)]) := by
  unfold getOrCreateStep
  rw [h]
  have hd : cacheDelete (e :: t) e.1 = t := by simp [cacheDelete]
  have hlen' : CACHE_SIZE ≤ t.length + 1 := by simpa using hlen
  simp [hlen', hd]

theorem getOrCreateStep_length_le {V : Type} (st : CacheState V) (k : Str)
    (fresh : V) (h : st.length ≤ CACHE_SIZE) :
    ((getOrCreateStep st k fresh).2).length ≤ CACHE_SIZE := by
  cases hg : cacheGet st k with
  | some v =>
    rw [getOrCreateStep_hit st k v fresh hg]
    have := length_cacheDelete_lt st k v hg
    simp only [List.length_append, List.length_cons, List.length_nil]
    omega
  | none =>
    by_cases hf : CACHE_SIZE ≤ st.length
    · cases st with
      | nil => simp [CACHE_SIZE] at hf
      | cons e t =>
        rw [getOrCreateStep_miss_full e t k fresh hg hf]
        simp only [List.length_append, List.length_cons, List.length_nil] at h ⊢
        omega
    · rw [getOrCreateStep_miss_small st k fresh hg (Nat.not_le.mp hf)]
      simp only [List.length_append, List.length_cons, List.length_nil]
      omega

theorem runMatcherCalls_aux_le {V : Type} (calls : List (Str × MMOptions × V)) :
    ∀ st : CacheState V, st.length ≤ CACHE_SIZE →
      (calls.foldl
        (fun st c => (getOrCreateStep st (getCacheKey c.1 c.2.1) c.2.2).2)
        st).length ≤ CACHE_SIZE := by
  induction calls with
  | nil => intro st h; simpa using h
  | cons c cs ih =>
    intro st h
    exact ih _ (getOrCreateStep_length_le st _ _ h)

/-- Claim C5: the compiled-pattern cache is a bounded LRU map.
(1) Starting from the empty cache, any sequence of `getOrCreateMatcher`
calls (each keyed by its pattern and options) leaves at most
`CACHE_SIZE = 500` entries, so in particular 501 distinct combinations
cannot push the size query past 500.
(2) A lookup hit re-inserts the entry at the most-recently-used end.
(3) A miss against a full cache first evicts exactly the oldest (front)
entry and then appends the new one. -/
theorem claim_C5 :
    (∀ (V : Type) (calls : List (Str × MMOptions × V)),
      getCacheSize (runMatcherCalls calls) ≤ CACHE_SIZE) ∧
    (∀ (V : Type) (st : CacheState V) (k : Str) (v fresh : V),
      cacheGet st k = some v →
      getOrCreateStep st k fresh = (v, cacheDelete st k ++ [(k, v)])) ∧
    (∀ (V : Type) (e : Str × V) (t : CacheState V) (k : Str) (fresh : V),
      cacheGet (e :: t) k = none → CACHE_SIZE ≤ (e :: t).length →
      getOrCreateStep (e :: t) k fresh = (fresh, t ++ [(k, fresh)])) := by
  refine ⟨?_, ?_, ?_⟩
  · intro V calls
    exact runMatcherCalls_aux_le calls [] (by simp [CACHE_SIZE])
  · intro V st k v fresh h
    exact getOrCreateStep_hit st k v fresh h
  · intro V e t k fresh hg hf
    exact getOrCreateStep_miss_full e t k fresh hg hf

theorem cacheGet_cons {V : Type} (e : Str × V) (t : CacheState V) (k : Str) :
    cacheGet (e :: t) k = if e.1 = k then some e.2 else cacheGet t k := rfl

theorem cacheGet_replicate_none {V : Type} (n : Nat) (e : Str × V) (k : Str)
    (h : ¬ e.1 = k) : cacheGet (List.replicate n e) k = none := by
  induction n with
  | zero => rfl
  | succ n ih => rw [List.replicate_succ, cacheGet_cons, if_neg h, ih]

/-- Witness for claim C5: part (1) on a concrete three-call sequence with a
repeated key, part (2) promoting the sole entry of a one-entry cache, part
(3) evicting the front entry of a full 500-entry cache. -/
theorem claim_C5_witness :
    getCacheSize (runMatcherCalls
      [(['a'], ({} : MMOptions), (0 : Nat)), (['b'], {}, 1), (['a'], {}, 2)])
      ≤ CACHE_SIZE ∧
    getOrCreateStep [(['k'], (7 : Nat))] ['k'] 9 = (7, [(['k'], 7)]) ∧
    getOrCreateStep ((['a'], (0 : Nat)) :: List.replicate 499 (['b'], 0)) ['c'] 5
      = (5, List.replicate 499 (['b'], 0) ++ [(['c'], 5)]) :=
  ⟨claim_C5.1 Nat _,
   by
    have h := claim_C5.2.1 Nat [(['k'], (7 : Nat))] ['k'] 7 9 (by rfl)
    simpa [cacheDelete] using h,
   by
    have hnone : cacheGet (List.replicate 499 ((['b'], (0 : Nat)))) ['c'] = none :=
      cacheGet_replicate_none 499 _ _ (by decide)
    have hget : cacheGet ((['a'], (0 : Nat)) :: List.replicate 499 (['b'], 0)) ['c']
        = none := by
      rw [cacheGet_cons, if_neg (by decide), hnone]
    exact claim_C5.2.2 Nat (['a'], (0 : Nat)) (List.replicate 499 (['b'], 0)) ['c'] 5
      hget (by rw [List.length_cons, List.length_replicate]; decide)⟩

/-! ### Brace expansion (claim C6) -/

/-- Claim C6, counterexample: `braceExpand` does not always deduplicate.
On the pattern `{a,a}` the simple-brace fast path fires and returns the
comma-split items verbatim, `["a","a"]`, which still contains a duplicate
(its first-seen deduplication would be `["a"]`).  The expander oracle is
irrelevant (the fast path never consults it). -/
theorem claim_C6_counterexample :
    (braceExpand (fun _ => Except.error ()) [] ['{', 'a', ',', 'a', '}'] {}).1
        = [['a'], ['a']] ∧
    dedupFirst [['a'], ['a']] ≠ [['a'], ['a']] := by
  exact ⟨rfl, by decide⟩

/-- Claim C6, amended: `braceExpand(pattern, options)` never raises; it
returns exactly `[pattern]` when `nobrace` is set, when the pattern lacks a
`{` followed later by a `}`, when the general expander errors, or when the
general expansion exceeds 10,000 results; when the general expander runs
within the cap its result is returned with duplicates removed preserving
first-seen order (`[pattern]` if it was empty); but when the single
non-nested comma-group fast path applies, the comma-split alternatives are
returned verbatim, duplicates included (e.g.
`braceExpand("{a,b,c}") = ["a","b","c"]`). -/
theorem claim_C6 :
    (∀ (E : Str → Except Unit (List Str)) (cache : CacheState (List Str))
        (p : Str) (o : MMOptions), o.nobrace = true →
      braceExpand E cache p o = ([p], cache)) ∧
    (∀ (E : Str → Except Unit (List Str)) (cache : CacheState (List Str))
        (p : Str) (o : MMOptions), hasBracePair p = false →
      braceExpand E cache p o = ([p], cache)) ∧
    (∀ (E : Str → Except Unit (List Str)) (cache : CacheState (List Str))
        (p : Str) (o : MMOptions) (err : Unit),
      cacheGet cache p = none → trySimpleBraceExpand p = none →
      E p = .error err → braceExpand E cache p o = ([p], cache)) ∧
    (∀ (E : Str → Except Unit (List Str)) (cache : CacheState (List Str))
        (p : Str) (o : MMOptions) (expanded : List Str),
      cacheGet cache p = none → trySimpleBraceExpand p = none →
      E p = .ok expanded → MAX_EXPANSION_LENGTH < expanded.length →
      braceExpand E cache p o = ([p], cache)) ∧
    (∀ (E : Str → Except Unit (List Str)) (cache : CacheState (List Str))
        (p : Str) (o : MMOptions) (expanded : List Str),
      o.nobrace = false → hasBracePair p = true →
      cacheGet cache p = none → trySimpleBraceExpand p = none →
      E p = .ok expanded → expanded.length ≤ MAX_EXPANSION_LENGTH →
      (braceExpand E cache p o).1 =
        (if dedupFirst expanded = [] then [p] else dedupFirst expanded)) ∧
    (∀ (E : Str → Except Unit (List Str)) (cache : CacheState (List Str))
        (p : Str) (o : MMOptions) (r : List Str),
      o.nobrace = false → hasBracePair p = true →
      cacheGet cache p = none → trySimpleBraceExpand p = some r →
      (braceExpand E cache p o).1 = r) ∧
    (∀ (E : Str → Except Unit (List Str)),
      (braceExpand E [] ['{', 'a', ',', 'b', ',', 'c', '}'] {}).1
        = [['a'], ['b'], ['c']]) := by
  refine ⟨?_, ?_, ?_, ?_, ?_, ?_, ?_⟩
  · intro E cache p o h
    simp [braceExpand, h]
  · intro E cache p o h
    by_cases hb : o.nobrace = true <;> simp [braceExpand, h, hb]
  · intro E cache p o err h1 h2 h3
    by_cases hb : o.nobrace = true
    · simp [braceExpand, hb]
    · by_cases hp : hasBracePair p = true
      · simp [braceExpand, hb, hp, h1, h2, h3]
      · simp only [Bool.not_eq_true] at hp
        simp [braceExpand, hb, hp]
  · intro E cache p o expanded h1 h2 h3 h4
    by_cases hb : o.nobrace = true
    · simp [braceExpand, hb]
    · by_cases hp : hasBracePair p = true
      · simp [braceExpand, hb, hp, h1, h2, h3, h4]
      · simp only [Bool.not_eq_true] at hp
        simp [braceExpand, hb, hp]
  · intro E cache p o expanded hb hp h1 h2 h3 h4
    simp [braceExpand, hb, hp, h1, h2, h3, Nat.not_lt.mpr h4]
  · intro E cache p o r hb hp h1 h2
    simp [braceExpand, hb, hp, h1, h2]
  · intro E
    rfl

/-- Witness for claim C6 at concrete inputs discharging each hypothesis. -/
theorem claim_C6_witness :
    braceExpand (fun _ => Except.ok []) [] ['{', 'a', '}'] { nobrace := true }
        = ([['{', 'a', '}']], []) ∧
    braceExpand (fun _ => Except.ok []) [] ['a', 'b'] {} = ([['a', 'b']], []) ∧
    braceExpand (fun _ => Except.error ()) [] ['{', '{', 'x', '}', '}'] {}
        = ([['{', '{', 'x', '}', '}']], []) ∧
    (braceExpand (fun _ => Except.ok [['y'], ['y'], ['z']]) []
        ['{', '{', 'x', '}', '}'] {}).1 = [['y'], ['z']] ∧
    (braceExpand (fun _ => Except.ok []) [] ['{', 'a', ',', 'b', '}'] {}).1
        = [['a'], ['b']] ∧
    (braceExpand (fun _ => Except.ok []) [] ['{', 'a', ',', 'b', ',', 'c', '}'] {}).1
        = [['a'], ['b'], ['c']] := by
  refine ⟨?_, ?_, ?_, ?_, ?_, ?_⟩
  · exact claim_C6.1 _ _ _ _ rfl
  · exact claim_C6.2.1 _ _ _ _ (by decide)
  · exact claim_C6.2.2.1 _ _ _ _ () rfl (by decide) rfl
  · have h := claim_C6.2.2.2.2.1 (fun _ => Except.ok [['y'], ['y'], ['z']]) []
      ['{', '{', 'x', '}', '}'] {} [['y'], ['y'], ['z']]
      rfl (by decide) rfl (by decide) rfl (by decide)
    simpa using h
  · exact claim_C6.2.2.2.2.2.1 _ _ _ _ [['a'], ['b']]
      rfl (by decide) rfl (by decide)
  · exact claim_C6.2.2.2.2.2.2 _

/-! ### matchOne (claims C7, C8) -/

/-- Claim C7: in `matchOne`, when the walk reaches a Globstar token in final
pattern position (so at least the current file segment remains), the match
succeeds by consuming all remaining file segments, except that it fails
exactly when some remaining segment is `.`, `..`, or — without the `dot`
option — starts with a dot. -/
theorem claim_C7 (dot pfl : Bool) (f : Str) (fs : List Str) :
    matchOne dot pfl (f :: fs) [PToken.globstar] = true ↔
      ∀ seg ∈ f :: fs,
        ¬(seg = ['.'] ∨ seg = ['.', '.'] ∨ (dot = false ∧ seg.head? = some '.')) := by
  have h : matchOne dot pfl (f :: fs) [PToken.globstar]
      = (f :: fs).all (fun seg => !dotBad dot seg) := by
    simp [matchOne]
  rw [h, List.all_eq_true]
  constructor
  · intro ha seg hseg
    have := ha seg hseg
    simp only [dotBad, Bool.not_eq_true', Bool.or_eq_false_iff,
      Bool.and_eq_false_iff, beq_eq_false_iff_ne, ne_eq, Bool.not_eq_false',
      beq_iff_eq] at this
    rcases this with ⟨⟨h1, h2⟩, h3⟩
    rintro (rfl | rfl | ⟨hdot, hh⟩)
    · exact h1 rfl
    · exact h2 rfl
    · rcases h3 with h3 | h3
      · rw [hdot] at h3; cases h3
      · exact absurd hh (by simpa using h3)
  · intro ha seg hseg
    have := ha seg hseg
    simp only [dotBad, Bool.not_eq_true', Bool.or_eq_false_iff,
      Bool.and_eq_false_iff, beq_eq_false_iff_ne, ne_eq, Bool.not_eq_false',
      beq_iff_eq]
    push_neg at this
    refine ⟨⟨this.1, this.2.1⟩, ?_⟩
    by_cases hdot : dot = false
    · right
      have := this.2.2 hdot
      simpa using this
    · left
      simpa using hdot

/-- Claim C8: the termination rules of the `matchOne` walk: both sequences
exhausted is success; file exhausted with pattern remaining yields the
`partial` flag; pattern exhausted with file remaining succeeds exactly when
a single empty segment remains. -/
theorem claim_C8 (dot pfl : Bool) :
    matchOne dot pfl [] [] = true ∧
    (∀ (p : PToken) (ps : List PToken), matchOne dot pfl [] (p :: ps) = pfl) ∧
    (∀ (f : Str) (fs : List Str),
      (matchOne dot pfl (f :: fs) [] = true ↔ f :: fs = [[]])) := by
  refine ⟨by simp [matchOne], fun p ps => by simp [matchOne], fun f fs => ?_⟩
  have h : matchOne dot pfl (f :: fs) [] = (fs.isEmpty && f.isEmpty) := by
    simp [matchOne]
  rw [h]
  simp [List.isEmpty_iff]
  tauto

/-! ### Minimatch.match and the `.`/`..` exception (claims C4, C10) -/

theorem mmMatch_dot_early (st : MMState) (path0 : Str) (pfl : Bool)
    (h1 : st.comment = false) (h2 : st.empty = false)
    (hb : lastSeg (mmNormPath st path0) = ['.'] ∨
      lastSeg (mmNormPath st path0) = ['.', '.'])
    (h3 : st.patternBasename ≠ lastSeg (mmNormPath st path0))
    (h4 : st.patternBasename ≠ '.' :: '*' :: (lastSeg (mmNormPath st path0)).drop 1)
    (h5 : strIncludes st.pattern (lastSeg (mmNormPath st path0)) = false) :
    mmMatch st path0 pfl = st.negate := by
  have hroot : ¬ (path0 = ['/'] ∧ pfl = true) := by
    rintro ⟨rfl, -⟩
    have hn : mmNormPath st ['/'] = ['/'] := by simp [mmNormPath]
    rw [hn] at hb
    simp [lastSeg] at hb
  simp only [mmMatch, h1, h2]
  rw [if_neg (by simp), if_neg (by simp), if_neg hroot, if_pos ⟨hb, h3, h4, h5⟩]

/-- Claim C4, counterexample: with path `.` and pattern `.*` the code does
not return `false`: the guard compares the pattern basename against
`'.*' + basename.slice(1)`, which for basename `.` is `.*` itself, so the
match proceeds to the underlying picomatch matcher (here the matcher of the
pattern `.*`, which accepts the one-character string `.`) and returns
`true` — while the claim allows the `.*` exception only for `..` and
demands `false` here. -/
theorem claim_C4_counterexample :
    mmMatch
      (mkState ['.', '*'] {} [fun s => s == ['.']] ['l', 'i', 'n', 'u', 'x'])
      ['.'] false = true := rfl

/-- Claim C4, amended: when the (normalized) path's final segment is `.` or
`..`, `Minimatch.match` returns `false` (or `true` by negation) only when
all three of the code's guards hold: the pattern's basename differs from the
segment, the basename also differs from `'.*' + segment.slice(1)` (that is,
`.*` paired with `.` and `.*.` paired with `..`), and the segment does not
occur as a substring of the pattern; otherwise the matchers decide.  The
claim's particular examples do hold: `match('.', '*') == false` and
`match('..', '*', {dot:true}) == false`. -/
theorem claim_C4 :
    (∀ (st : MMState) (path0 : Str) (pfl : Bool),
      st.comment = false → st.empty = false →
      (lastSeg (mmNormPath st path0) = ['.'] ∨
        lastSeg (mmNormPath st path0) = ['.', '.']) →
      st.patternBasename ≠ lastSeg (mmNormPath st path0) →
      st.patternBasename ≠ '.' :: '*' :: (lastSeg (mmNormPath st path0)).drop 1 →
      strIncludes st.pattern (lastSeg (mmNormPath st path0)) = false →
      mmMatch st path0 pfl = st.negate) ∧
    (∀ (ms : List (Str → Bool)) (dp : Str),
      mmMatch (mkState ['*'] {} ms dp) ['.'] false = false) ∧
    (∀ (ms : List (Str → Bool)) (dp : Str),
      mmMatch (mkState ['*'] { dot := true } ms dp) ['.', '.'] false = false) := by
  have hnorm : ∀ (st : MMState) (p : Str), p.contains '\\' = false →
      mmNormPath st p = p := by
    intro st p hp
    unfold mmNormPath
    rw [hp]
    simp
  refine ⟨mmMatch_dot_early, ?_, ?_⟩
  · intro ms dp
    have hn := hnorm (mkState ['*'] {} ms dp) ['.'] (by decide)
    have h := mmMatch_dot_early (mkState ['*'] {} ms dp) ['.'] false
      rfl rfl (by rw [hn]; left; rfl)
      (by rw [hn]; exact (by decide : (['*'] : Str) ≠ ['.']))
      (by rw [hn]; exact (by decide : (['*'] : Str) ≠ ['.', '*']))
      (by rw [hn]; rfl)
    simpa using h
  · intro ms dp
    have hn := hnorm (mkState ['*'] { dot := true } ms dp) ['.', '.'] (by decide)
    have h := mmMatch_dot_early (mkState ['*'] { dot := true } ms dp) ['.', '.'] false
      rfl rfl (by rw [hn]; right; rfl)
      (by rw [hn]; exact (by decide : (['*'] : Str) ≠ ['.', '.']))
      (by rw [hn]; exact (by decide : (['*'] : Str) ≠ ['.', '*', '.']))
      (by rw [hn]; rfl)
    simpa using h

/-- Witness for claim C4 with every hypothesis discharged at a concrete
instance (pattern `*`, path `a/..`, one rejecting matcher). -/
theorem claim_C4_witness :
    mmMatch (mkState ['*'] {} [fun _ => false] ['l', 'i', 'n', 'u', 'x'])
      ['a', '/', '.', '.'] false = false ∧
    mmMatch (mkState ['*'] {} [fun _ => true] ['l', 'i', 'n', 'u', 'x'])
      ['.'] false = false ∧
    mmMatch (mkState ['*'] { dot := true } [fun _ => true] ['l', 'i', 'n', 'u', 'x'])
      ['.', '.'] false = false := by
  refine ⟨?_, claim_C4.2.1 _ _, claim_C4.2.2 _ _⟩
  have h := claim_C4.1
    (mkState ['*'] {} [fun _ => false] ['l', 'i', 'n', 'u', 'x'])
    ['a', '/', '.', '.'] false rfl rfl
    (by right; rfl) (by decide) (by decide) (by rfl)
  simpa using h

/-- Claim C10: for every non-comment, non-empty pattern and every option
set, `Minimatch.match('/', true)` returns `true` through the root-partial
short circuit, before negation or `flipNegate` are consulted. -/
theorem claim_C10 (pat : Str) (o : MMOptions) (ms : List (Str → Bool)) (dp : Str)
    (h1 : (mkState pat o ms dp).comment = false)
    (h2 : (mkState pat o ms dp).empty = false) :
    mmMatch (mkState pat o ms dp) ['/'] true = true := by
  simp only [mmMatch, h1, h2]
  simp

/-- Witness for claim C10: a negated pattern with `flipNegate`, matchers
that reject everything, and still `match('/', true) = true`. -/
theorem claim_C10_witness :
    mmMatch (mkState ['!', 'a'] { flipNegate := true } [fun _ => false] [])
      ['/'] true = true :=
  claim_C10 ['!', 'a'] { flipNegate := true } [fun _ => false] [] rfl rfl

end MinimatchFast
